import Mathlib

/-!
Verification of the streamEye MJPEG fan-out server core (src/streameye.c)
against its natural-language specification.

The frame segmenter and the main-loop control flow are shallowly embedded
over lists of bytes (`Nat`).  The repository header `streameye.h` (which
defines `INPUT_BUF_LEN`, `JPEG_BUF_LEN`, `JPEG_START`, `JPEG_END`,
`DEF_TCP_PORT`) and the client-session source `client.c` are not part of
src/, so the buffer-size constants are kept as parameters of a `Config`
structure and the few facts needed about the missing code are modelled
from the spec, each marked `Modelled from the spec:` in its doc comment.
-/

set_option autoImplicit false

namespace StreamEye

abbrev Byte := Nat

/-- Modelled from the spec: `JPEG_START` is the two-byte JPEG start-of-image
marker `FF D8` (spec glossary); this constant is defined in `streameye.h`, which is
absent from src/. -/
def JPEG_START : List Byte := [0xFF, 0xD8]

/-- Modelled from the spec: `JPEG_END` is the two-byte JPEG end-of-image
marker `FF D9` (spec glossary); this constant is defined in `streameye.h`, which is
absent from src/. -/
def JPEG_END : List Byte := [0xFF, 0xD9]

/-- The auto-detection separator built by streameye.c line 344:
`snprintf(input_separator, 5, "%s%s", JPEG_END, JPEG_START)`,
i.e. the four bytes `FF D9 FF D8`. -/
def autoSep : List Byte := JPEG_END ++ JPEG_START

/-- C `memmem(hay, hlen, needle, nlen)` over byte lists: the index of the
first occurrence of `needle` in `hay`, `none` if there is none. -/
def memmem : List Byte → List Byte → Option Nat
  | [], needle =>
    if ([] : List Byte).take needle.length = needle then some 0 else none
  | a :: t, needle =>
    if (a :: t).take needle.length = needle then some 0
    else (memmem t needle).map (· + 1)

/-- `needle` occurs in `hay` at offset `i`. -/
def occursAt (needle hay : List Byte) (i : Nat) : Prop :=
  (hay.drop i).take needle.length = needle

instance (needle hay : List Byte) (i : Nat) : Decidable (occursAt needle hay i) := by
  unfold occursAt; infer_instance

/-- Configuration of the segmenter: the two buffer-size compile-time
constants from `streameye.h` (absent from src/, hence parameters) and the
`-s` separator option (`none` = auto-detect, matching `input_separator ==
NULL` in streameye.c). -/
structure Config where
  inputBufLen : Nat
  jpegBufLen : Nat
  input_separator : Option (List Byte)

/-- `auto_separator` flag of streameye.c line 338-345: set iff no explicit
separator was supplied. -/
def Config.auto_separator (cfg : Config) : Bool :=
  cfg.input_separator.isNone

/-- The separator bytes actually searched for (streameye.c lines 340-348). -/
def Config.sepBytes (cfg : Config) : List Byte :=
  match cfg.input_separator with
  | none => autoSep
  | some s => s

/-- `MIN(2 * INPUT_BUF_LEN, jpeg_size)`: the length of the trailing search
window (streameye.c line 376). -/
def searchWindow (cfg : Config) (buf : List Byte) : Nat :=
  min (2 * cfg.inputBufLen) buf.length

/-- The separator search of streameye.c lines 375-377: `memmem` over the
trailing `searchWindow` bytes of the accumulator, with the hit translated
back to an absolute buffer offset (`sep - jpeg_buf`). -/
def findSep (cfg : Config) (buf : List Byte) : Option Nat :=
  (memmem (buf.drop (buf.length - searchWindow cfg buf)) cfg.sepBytes).map
    (· + (buf.length - searchWindow cfg buf))

/-- The overflow test of streameye.c line 366:
`size > JPEG_BUF_LEN - 1 - jpeg_size`. -/
def discards (cfg : Config) (jpeg_size chunk_size : Nat) : Bool :=
  decide (cfg.jpegBufLen - 1 - jpeg_size < chunk_size)

/-- One main-loop iteration of the segmenter on a chunk read from stdin
(streameye.c lines 366-417): overflow discard, append, separator search,
and on a hit the emitted frame (`.1`) and retained remainder (`.2`);
auto mode keeps the trailing `FF D9` in the frame and the leading `FF D8`
in the remainder, explicit mode strips the separator. -/
def processChunk (cfg : Config) (buf chunk : List Byte) :
    Option (List Byte) × List Byte :=
  if discards cfg buf.length chunk.length then (none, [])
  else
    match findSep cfg (buf ++ chunk) with
    | none => (none, buf ++ chunk)
    | some k =>
      if cfg.auto_separator then
        (some ((buf ++ chunk).take (k + 2)), (buf ++ chunk).drop (k + 2))
      else
        (some ((buf ++ chunk).take k), (buf ++ chunk).drop (k + cfg.sepBytes.length))

/-- The segmenter run over a whole sequence of stdin chunks: the list of
emitted frames together with the final accumulator contents. -/
def processStream (cfg : Config) : List Byte → List (List Byte) →
    List (List Byte) × List Byte
  | buf, [] => ([], buf)
  | buf, chunk :: rest =>
    let r := processChunk cfg buf chunk
    let t := processStream cfg r.2 rest
    (r.1.toList ++ t.1, t.2)

/-- Modelled from the spec: the client session (`handle_client` in
client.c, absent from src/) writes one multipart part per broadcast frame,
whose payload is exactly the frame bytes (spec section 6). -/
def partPayloads (frames : List (List Byte)) : List (List Byte) :=
  frames

/-- A well-formed JPEG frame for the concatenated-stream round trip of the
spec (section 8): starts with `FF D8`, ends with `FF D9`, fits in one
stdin chunk, and contains no internal occurrence of the auto separator. -/
def ValidJpeg (cfg : Config) (J : List Byte) : Prop :=
  4 ≤ J.length ∧ J.length ≤ cfg.inputBufLen ∧
  J.take 2 = JPEG_START ∧ J.drop (J.length - 2) = JPEG_END ∧
  memmem J autoSep = none

instance (cfg : Config) (J : List Byte) : Decidable (ValidJpeg cfg J) := by
  unfold ValidJpeg; infer_instance

/-! ### Event-trace model of `main` (streameye.c lines 328-483)

The lock/IO behaviour of the main thread is modelled as the list of
lock, read, broadcast, sleep, close, join and exit events it performs,
driven by the outcome of each `read(STDIN_FILENO, ...)` call and of each
non-blocking `accept`. -/

/-- Outcome of one `read(STDIN_FILENO, input_buf, INPUT_BUF_LEN)` call
(streameye.c line 351): a chunk of data (`size > 0`), end of stream
(`size == 0`), or a failure (`size < 0`), interrupted (`EINTR`) or not. -/
inductive ReadResult where
  | chunk (data : List Byte)
  | eof
  | rerr (eintr : Bool)
deriving DecidableEq

/-- External input of one main-loop iteration: the stdin read outcome and
the client accepted by `wait_for_client` this round, if any (identified
by an abstract id). -/
structure LoopInput where
  rd : ReadResult
  accept : Option Nat
deriving DecidableEq

/-- Observable events of the main thread. -/
inductive Ev where
  | lockJpeg
  | unlockJpeg
  | lockClients
  | unlockClients
  | readCall (r : ReadResult)
  | broadcastFrame
  | sleepYield
  | closeSocket
  | joinClient (id : Nat)
  | exitProc (code : Int)
deriving DecidableEq

/-- The shutdown sequence after the main loop exits (streameye.c lines
444-482): close the listening socket, flag the clients and broadcast on
`jpeg_cond`, release `jpeg_mutex`, join every registered client, and
return 0. -/
def shutdownTrace (clients : List Nat) : List Ev :=
  (Ev.closeSocket :: Ev.broadcastFrame :: Ev.unlockJpeg ::
    clients.map Ev.joinClient) ++ [Ev.exitProc 0]

/-- The main loop of streameye.c lines 350-442 as an event trace, given
the accumulator, the registered clients and the remaining per-iteration
inputs.  `jpeg_mutex` is locked on entry (line 329).  An exhausted input
list models `running` being cleared by a signal before the next read.
A non-`EINTR` read failure is `return -1` (line 358), with no unlock, no
close and no joins; `EINTR` or EOF break into the shutdown sequence.  On
a separator hit the producer broadcasts, unlocks, sleeps ~1 ms and
relocks (lines 395-412); an overflow discard `continue`s past the accept
(line 369); an accepted client is registered under `clients_mutex`
(lines 427-440), taken while `jpeg_mutex` is still held. -/
def mainLoop (cfg : Config) : List Byte → List Nat → List LoopInput → List Ev
  | _, clients, [] => shutdownTrace clients
  | buf, clients, inp :: rest =>
    Ev.readCall inp.rd ::
      match inp.rd with
      | ReadResult.eof => shutdownTrace clients
      | ReadResult.rerr true => shutdownTrace clients
      | ReadResult.rerr false => [Ev.exitProc (-1)]
      | ReadResult.chunk data =>
        if discards cfg buf.length data.length then
          mainLoop cfg [] clients rest
        else
          (match (processChunk cfg buf data).1 with
            | some _ => [Ev.broadcastFrame, Ev.unlockJpeg, Ev.sleepYield, Ev.lockJpeg]
            | none => []) ++
          match inp.accept with
          | some id =>
            Ev.lockClients :: Ev.unlockClients ::
              mainLoop cfg (processChunk cfg buf data).2 (clients ++ [id]) rest
          | none => mainLoop cfg (processChunk cfg buf data).2 clients rest

/-- The whole `main` after initialization: `jpeg_mutex` is locked first
(streameye.c line 329), then the loop runs with an empty accumulator and
no clients. -/
def mainTrace (cfg : Config) (inputs : List LoopInput) : List Ev :=
  Ev.lockJpeg :: mainLoop cfg [] [] inputs

/-- Whether `jpeg_mutex` is held by the main thread after an event. -/
def applyJpeg (held : Bool) (e : Ev) : Bool :=
  match e with
  | Ev.lockJpeg => true
  | Ev.unlockJpeg => false
  | _ => held

/-- Whether `clients_mutex` is held by the main thread after an event. -/
def applyClients (held : Bool) (e : Ev) : Bool :=
  match e with
  | Ev.lockClients => true
  | Ev.unlockClients => false
  | _ => held

/-- `jpeg_mutex` held just before the `i`-th event of the trace. -/
def jpegHeldAt (tr : List Ev) (i : Nat) : Bool :=
  (tr.take i).foldl applyJpeg false

/-- `clients_mutex` held just before the `i`-th event of the trace. -/
def clientsHeldAt (tr : List Ev) (i : Nat) : Bool :=
  (tr.take i).foldl applyClients false

/-- Checks that every `readCall` in the trace happens with `jpeg_mutex`
held (`held` is the lock state on entry). -/
def readsHeldCheck (held : Bool) : List Ev → Bool
  | [] => true
  | e :: t =>
    (match e with
      | Ev.readCall _ => held
      | _ => true) && readsHeldCheck (applyJpeg held e) t

/-- Checks that at every point of the trace, holding `clients_mutex`
implies holding `jpeg_mutex` (`j`, `c` are the lock states on entry). -/
def bothCheck (j c : Bool) : List Ev → Bool
  | [] => !c || j
  | e :: t => (!c || j) && bothCheck (applyJpeg j e) (applyClients c e) t

/-! ### `on_client_exit` (streameye.c lines 151-175) -/

/-- The linear scan of `on_client_exit` looking for the exiting client in
the `clients` array (streameye.c lines 157-166). -/
def findClientIdx : List Nat → Nat → Option Nat
  | [], _ => none
  | x :: t, c => if x = c then some 0 else (findClientIdx t c).map (· + 1)

/-- `on_client_exit` (streameye.c lines 151-175): if the client is found
at index `i`, all later entries are shifted back one position and the
array is shrunk by one (`realloc` to `--num_clients` entries); if it is
not found, the shift never runs and the shrink simply drops the last
entry. -/
def on_client_exit (clients : List Nat) (client : Nat) : List Nat :=
  match findClientIdx clients client with
  | some i => clients.take i ++ clients.drop (i + 1)
  | none => clients.take (clients.length - 1)

/-! ### Port resolution (C10) -/

/-- Modelled from the spec: `DEF_TCP_PORT` is 8080 (spec section 3,
Config: "port (u16, default 8080)"); this constant is defined in `streameye.h`,
which is absent from src/. -/
def DEF_TCP_PORT : Nat := 8080

/-- The tcp port finally listened on, as computed by `main`: `tcp_port`
starts at 0 (streameye.c line 41), `-p` overwrites it with the parsed
value (lines 238-243), and a zero value afterwards is replaced by the
default (lines 272-274). -/
def resolveTcpPort (portArg : Option Nat) : Nat :=
  let tcp_port := match portArg with
    | some p => p
    | none => 0
  if tcp_port = 0 then DEF_TCP_PORT else tcp_port

end StreamEye

namespace StreamEye

/-! ### Lemmas about `memmem` -/

theorem memmem_nil_needle (hay : List Byte) : memmem hay [] = some 0 := by
  cases hay <;> simp [memmem]

theorem memmem_sound :
    ∀ (hay needle : List Byte) (i : Nat),
      memmem hay needle = some i → occursAt needle hay i
  | [], needle, i, h => by
    simp [memmem] at h
    obtain ⟨rfl, rfl⟩ := h
    simp [occursAt]
  | a :: t, needle, i, h => by
    by_cases hc : (a :: t).take needle.length = needle
    · simp [memmem, hc] at h
      subst h; simpa [occursAt] using hc
    · simp [memmem, hc] at h
      obtain ⟨j, hj, rfl⟩ := h
      have := memmem_sound t needle j hj
      simpa [occursAt] using this

theorem memmem_le :
    ∀ (hay needle : List Byte) (i : Nat),
      memmem hay needle = some i → i ≤ hay.length
  | [], needle, i, h => by
    simp [memmem] at h
    obtain ⟨rfl, rfl⟩ := h
    simp
  | a :: t, needle, i, h => by
    by_cases hc : (a :: t).take needle.length = needle
    · simp [memmem, hc] at h; omega
    · simp [memmem, hc] at h
      obtain ⟨j, hj, rfl⟩ := h
      have := memmem_le t needle j hj
      simp; omega

theorem memmem_add_le (hay needle : List Byte) (i : Nat)
    (h : memmem hay needle = some i) : i + needle.length ≤ hay.length := by
  have h1 := memmem_sound hay needle i h
  have h2 := memmem_le hay needle i h
  have h3 : needle.length ≤ (hay.drop i).length := by
    conv_lhs => rw [← h1]
    exact (List.length_take _ _).le.trans (by simp)
  simp at h3
  omega

theorem memmem_min :
    ∀ (hay needle : List Byte) (i : Nat),
      memmem hay needle = some i → ∀ j < i, ¬ occursAt needle hay j
  | [], needle, i, h => by
    simp [memmem] at h
    obtain ⟨rfl, rfl⟩ := h
    omega
  | a :: t, needle, i, h => by
    by_cases hc : (a :: t).take needle.length = needle
    · simp [memmem, hc] at h; omega
    · simp [memmem, hc] at h
      obtain ⟨j', hj', rfl⟩ := h
      intro j hj
      cases j with
      | zero => simpa [occursAt] using hc
      | succ j =>
        have := memmem_min t needle j' hj' j (by omega)
        simpa [occursAt] using this

theorem memmem_none :
    ∀ (hay needle : List Byte),
      memmem hay needle = none → ∀ j, ¬ occursAt needle hay j
  | [], needle, h => by
    by_cases hc : ([] : List Byte).take needle.length = needle
    · simp [memmem, hc] at h
    · intro j
      simp only [occursAt, List.drop_nil]
      simpa using hc
  | a :: t, needle, h => by
    by_cases hc : (a :: t).take needle.length = needle
    · simp [memmem, hc] at h
    · simp [memmem, hc] at h
      intro j
      cases j with
      | zero => simpa [occursAt] using hc
      | succ j =>
        have := memmem_none t needle h j
        simpa [occursAt] using this

theorem memmem_of_occursAt (hay needle : List Byte) (j : Nat)
    (h : occursAt needle hay j) :
    ∃ i, memmem hay needle = some i ∧ i ≤ j := by
  cases e : memmem hay needle with
  | none => exact absurd h (memmem_none hay needle e j)
  | some i =>
    refine ⟨i, rfl, ?_⟩
    by_contra hlt
    exact memmem_min hay needle i e j (by omega) h

theorem memmem_eq_some_iff (hay needle : List Byte) (i : Nat) :
    memmem hay needle = some i ↔
      occursAt needle hay i ∧ ∀ j < i, ¬ occursAt needle hay j := by
  constructor
  · intro h
    exact ⟨memmem_sound hay needle i h, memmem_min hay needle i h⟩
  · rintro ⟨hocc, hmin⟩
    obtain ⟨i', hi', hle⟩ := memmem_of_occursAt hay needle i hocc
    rcases Nat.lt_or_ge i' i with hlt | hge
    · exact absurd (memmem_sound hay needle i' hi') (hmin i' hlt)
    · have : i' = i := by omega
      exact this ▸ hi'

theorem memmem_drop (needle : List Byte) :
    ∀ (t : Nat) (hay : List Byte),
      (∀ j < t, ¬ occursAt needle hay j) →
      memmem hay needle = (memmem (hay.drop t) needle).map (· + t)
  | 0, hay, _ => by
    rw [List.drop_zero]
    cases memmem hay needle <;> simp
  | t + 1, [], h => by
    have h0 := h 0 (by omega)
    simp only [occursAt, List.drop_nil] at h0
    have hne : needle ≠ [] := by
      intro hnil; exact h0 (by simp [hnil])
    simp [memmem, hne, eq_comm]
  | t + 1, a :: tl, h => by
    have h0 := h 0 (by omega)
    have hc : ¬ (a :: tl).take needle.length = needle := by
      simpa [occursAt] using h0
    have ih := memmem_drop needle t tl (fun j hj => by
      have := h (j + 1) (by omega)
      simpa [occursAt] using this)
    simp only [memmem, hc, if_false, List.drop_succ_cons]
    rw [ih]
    cases memmem (tl.drop t) needle <;> simp [Nat.add_assoc]

theorem memmem_drop_none (hay needle : List Byte) (t : Nat)
    (h : memmem hay needle = none) : memmem (hay.drop t) needle = none := by
  cases e : memmem (hay.drop t) needle with
  | none => rfl
  | some i =>
    have hocc := memmem_sound _ _ _ e
    have : occursAt needle hay (t + i) := by
      simpa [occursAt, List.drop_drop, Nat.add_comm] using hocc
    exact absurd this (memmem_none hay needle h (t + i))

/-! ### Lemmas about `findSep` -/

theorem findSep_eq_memmem (cfg : Config) (buf : List Byte)
    (h : ∀ j < buf.length - searchWindow cfg buf, ¬ occursAt cfg.sepBytes buf j) :
    findSep cfg buf = memmem buf cfg.sepBytes := by
  rw [findSep, ← memmem_drop cfg.sepBytes (buf.length - searchWindow cfg buf) buf h]

theorem findSep_eq_memmem_of_le (cfg : Config) (buf : List Byte)
    (h : buf.length ≤ 2 * cfg.inputBufLen) :
    findSep cfg buf = memmem buf cfg.sepBytes := by
  apply findSep_eq_memmem
  intro j hj
  rw [searchWindow, Nat.min_eq_right h] at hj
  omega

theorem findSep_sound (cfg : Config) (buf : List Byte) (k : Nat)
    (h : findSep cfg buf = some k) :
    occursAt cfg.sepBytes buf k ∧ k + cfg.sepBytes.length ≤ buf.length := by
  rw [findSep] at h
  set t := buf.length - searchWindow cfg buf with ht
  cases e : memmem (buf.drop t) cfg.sepBytes with
  | none => rw [e] at h; simp at h
  | some i =>
    rw [e] at h
    simp at h
    subst h
    have hocc := memmem_sound _ _ _ e
    have hlen := memmem_add_le _ _ _ e
    constructor
    · simpa [occursAt, List.drop_drop, Nat.add_comm] using hocc
    · simp at hlen
      omega

end StreamEye

namespace StreamEye

/-! ### Unfolding lemmas for `processChunk` -/

theorem processChunk_of_discards (cfg : Config) (buf chunk : List Byte)
    (h : discards cfg buf.length chunk.length = true) :
    processChunk cfg buf chunk = (none, []) := by
  simp [processChunk, h]

theorem processChunk_no_discard_none (cfg : Config) (buf chunk : List Byte)
    (h : discards cfg buf.length chunk.length = false)
    (hs : findSep cfg (buf ++ chunk) = none) :
    processChunk cfg buf chunk = (none, buf ++ chunk) := by
  simp [processChunk, h, hs]

theorem processChunk_auto_split (cfg : Config) (buf chunk : List Byte) (k : Nat)
    (hauto : cfg.input_separator = none)
    (hOv : discards cfg buf.length chunk.length = false)
    (hk : findSep cfg (buf ++ chunk) = some k) :
    processChunk cfg buf chunk =
      (some ((buf ++ chunk).take (k + 2)), (buf ++ chunk).drop (k + 2)) := by
  simp [processChunk, hOv, hk, Config.auto_separator, hauto]

theorem processChunk_explicit_split (cfg : Config) (buf chunk : List Byte)
    (k : Nat) (s : List Byte) (hexp : cfg.input_separator = some s)
    (hOv : discards cfg buf.length chunk.length = false)
    (hk : findSep cfg (buf ++ chunk) = some k) :
    processChunk cfg buf chunk =
      (some ((buf ++ chunk).take k), (buf ++ chunk).drop (k + s.length)) := by
  simp [processChunk, hOv, hk, Config.auto_separator, hexp, Config.sepBytes]

/-! ### Claim theorems C1, C4, C5, C2 -/

/-- C1: whenever the segmenter finds the separator at buffer offset `k`
(the windowed search of line 376 hits, no overflow discard), auto mode
emits exactly bytes `[0, k+2)` of the accumulator and retains `[k+2, end)`
(streameye.c lines 380-382, 415), while explicit mode with a separator of
length `len` emits `[0, k)` and retains `[k+len, end)` (lines 384-386,
415); moreover the separator bytes really occur at offset `k`. -/
theorem C1_split_arithmetic (cfg : Config) (buf chunk : List Byte) (k : Nat)
    (hOv : discards cfg buf.length chunk.length = false)
    (hk : findSep cfg (buf ++ chunk) = some k) :
    (cfg.input_separator = none →
      processChunk cfg buf chunk =
        (some ((buf ++ chunk).take (k + 2)), (buf ++ chunk).drop (k + 2))) ∧
    (∀ s, cfg.input_separator = some s →
      processChunk cfg buf chunk =
        (some ((buf ++ chunk).take k), (buf ++ chunk).drop (k + s.length))) ∧
    occursAt cfg.sepBytes (buf ++ chunk) k := by
  refine ⟨?_, ?_, (findSep_sound cfg _ k hk).1⟩
  · intro h
    exact processChunk_auto_split cfg buf chunk k h hOv hk
  · intro s h
    exact processChunk_explicit_split cfg buf chunk k s h hOv hk

/-- Witness for C1: a concrete auto-mode hit at offset 3. -/
theorem C1_split_arithmetic_witness :
    processChunk ⟨4, 100, none⟩ [0xFF, 0xD8, 0x11] [0xFF, 0xD9, 0xFF, 0xD8, 0x22] =
      (some [0xFF, 0xD8, 0x11, 0xFF, 0xD9], [0xFF, 0xD8, 0x22]) := by
  have h := (C1_split_arithmetic ⟨4, 100, none⟩ [0xFF, 0xD8, 0x11]
    [0xFF, 0xD9, 0xFF, 0xD8, 0x22] 3 (by decide) (by decide)).1 rfl
  rw [h]; decide

/-- C4: a chunk whose size exceeds the remaining accumulator capacity
(`size > JPEG_BUF_LEN - 1 - jpeg_size`, streameye.c line 366) makes the
segmenter discard the whole accumulator together with the chunk: no frame
is emitted, the retained buffer becomes empty, and the following read is
processed exactly as from a fresh accumulator. -/
theorem C4_overflow_discard (cfg : Config) (buf chunk : List Byte)
    (h : cfg.jpegBufLen - 1 - buf.length < chunk.length) :
    processChunk cfg buf chunk = (none, []) ∧
    (∀ chunk2, processChunk cfg (processChunk cfg buf chunk).2 chunk2 =
        processChunk cfg [] chunk2) := by
  have hd : discards cfg buf.length chunk.length = true := by
    simp [discards, h]
  refine ⟨processChunk_of_discards cfg buf chunk hd, ?_⟩
  intro c2
  rw [processChunk_of_discards cfg buf chunk hd]

/-- Witness for C4: a 4-byte chunk on a 5-byte accumulator with
`JPEG_BUF_LEN = 8` is discarded. -/
theorem C4_overflow_discard_witness :
    processChunk ⟨4, 8, none⟩ [1, 2, 3, 4, 5] [6, 7, 8, 9] = (none, []) :=
  (C4_overflow_discard ⟨4, 8, none⟩ [1, 2, 3, 4, 5] [6, 7, 8, 9] (by decide)).1

/-- C5 counterexample: with `JPEG_BUF_LEN = 8` a well-formed JPEG frame of
exactly `JPEG_BUF_LEN - 1 = 7` bytes arrives on stdin, but is never
emitted: the separator ending it can only be completed by further bytes,
and the read delivering them overflows the accumulator, discarding the
frame.  The claim "a frame of exactly JPEG_BUF_LEN - 1 bytes is emitted"
is false on the code. -/
theorem C5_counterexample :
    processStream ⟨8, 8, none⟩ []
        [[0xFF, 0xD8, 0, 0, 0, 0xFF, 0xD9], [0xFF, 0xD8, 0xFF, 0xD9]] = ([], []) ∧
    ([0xFF, 0xD8, 0, 0, 0, 0xFF, 0xD9] : List Byte).length = 8 - 1 := by
  decide

/-- C5 amended: a frame of `JPEG_BUF_LEN - 1` bytes can never be emitted:
in auto mode every emitted frame satisfies
`length + 2 ≤ accumulated ≤ JPEG_BUF_LEN - 1` (the terminating half of the
separator must also fit in the accumulator), so frames have at most
`JPEG_BUF_LEN - 3` bytes; accumulating a total of exactly
`JPEG_BUF_LEN - 1` bytes is accepted, while a read bringing the total to
`JPEG_BUF_LEN` triggers the discard of line 366. -/
theorem C5_amended (cfg : Config) (hauto : cfg.input_separator = none)
    (buf chunk : List Byte) (hinv : buf.length ≤ cfg.jpegBufLen - 1) :
    (∀ f rem, processChunk cfg buf chunk = (some f, rem) →
        f.length + 2 ≤ buf.length + chunk.length ∧
        buf.length + chunk.length ≤ cfg.jpegBufLen - 1) ∧
    (buf.length + chunk.length = cfg.jpegBufLen - 1 →
        discards cfg buf.length chunk.length = false) ∧
    (buf.length + chunk.length = cfg.jpegBufLen → 1 ≤ cfg.jpegBufLen →
        discards cfg buf.length chunk.length = true) := by
  refine ⟨?_, ?_, ?_⟩
  · intro f rem h
    by_cases hd : discards cfg buf.length chunk.length = true
    · rw [processChunk_of_discards cfg buf chunk hd] at h
      simp at h
    · rw [Bool.not_eq_true] at hd
      have hcap : chunk.length ≤ cfg.jpegBufLen - 1 - buf.length := by
        simpa [discards] using hd
      cases e : findSep cfg (buf ++ chunk) with
      | none =>
        rw [processChunk_no_discard_none cfg buf chunk hd e] at h
        simp at h
      | some k =>
        have hs := findSep_sound cfg (buf ++ chunk) k e
        have hlen4 : cfg.sepBytes.length = 4 := by
          simp [Config.sepBytes, hauto, autoSep, JPEG_START, JPEG_END]
        rw [hlen4] at hs
        simp only [List.length_append] at hs
        have hsplit := processChunk_auto_split cfg buf chunk k hauto hd e
        rw [hsplit] at h
        have hf : f = (buf ++ chunk).take (k + 2) := by
          have hfst := congrArg Prod.fst h
          simp at hfst
          exact hfst.symm
        subst hf
        constructor
        · simp only [List.length_take, List.length_append]
          omega
        · omega
  · intro htot
    simp only [discards, decide_eq_false_iff_not, Nat.not_lt]
    omega
  · intro htot hB
    simp only [discards, decide_eq_true_eq]
    omega

/-- Witness for C5 amended: an emitted 3-byte frame obeys the bound with
`JPEG_BUF_LEN = 10`; totals of 9 and 10 accumulated bytes are accepted and
discarded respectively. -/
theorem C5_amended_witness :
    (([0x01, 0xFF, 0xD9] : List Byte).length + 2 ≤
        ([0x01, 0xFF, 0xD9] : List Byte).length + ([0xFF, 0xD8, 0x02] : List Byte).length ∧
      ([0x01, 0xFF, 0xD9] : List Byte).length + ([0xFF, 0xD8, 0x02] : List Byte).length ≤ 10 - 1) ∧
    discards ⟨4, 10, none⟩ 3 6 = false ∧
    discards ⟨4, 10, none⟩ 3 7 = true := by
  have H1 := (C5_amended ⟨4, 10, none⟩ rfl [0x01, 0xFF, 0xD9] [0xFF, 0xD8, 0x02]
    (by decide)).1 [0x01, 0xFF, 0xD9] [0xFF, 0xD8, 0x02] (by decide)
  have H2 := (C5_amended ⟨4, 10, none⟩ rfl [0x01, 0xFF, 0xD9] [0, 0, 0, 0, 0, 0]
    (by decide)).2.1 (by decide)
  have H3 := (C5_amended ⟨4, 10, none⟩ rfl [0x01, 0xFF, 0xD9] [0, 0, 0, 0, 0, 0, 0]
    (by decide)).2.2 (by decide) (by decide)
  exact ⟨H1, H2, H3⟩

end StreamEye

namespace StreamEye

/-- C2 counterexample: with `INPUT_BUF_LEN = 4` and explicit separator
`61 62` ("ab"), feeding the chunk sequence
`abab, abxa, bxxx, yyyy, abyy` (all chunks of size `INPUT_BUF_LEN`) leaves
a separator occurrence stranded: after the third chunk the retained
accumulator is `xabxxx` with an occurrence at offset 1; the fourth chunk
pushes that occurrence outside the trailing `2 * INPUT_BUF_LEN = 8` byte
search window, and the fifth chunk splits at a *later* occurrence, so the
fourth emitted frame `xabxxxyyyy` still contains the separator at offset 1
— that occurrence of the separator in the accumulated data was never
detected and never used to split a frame, refuting the claim. -/
theorem C2_window_counterexample :
    (processStream ⟨4, 100, some [0x61, 0x62]⟩ []
        [[0x61, 0x62, 0x61, 0x62], [0x61, 0x62, 0x78, 0x61],
         [0x62, 0x78, 0x78, 0x78], [0x79, 0x79, 0x79, 0x79],
         [0x61, 0x62, 0x79, 0x79]]).1 =
      [[], [], [], [0x78, 0x61, 0x62, 0x78, 0x78, 0x78, 0x79, 0x79, 0x79, 0x79]] ∧
    memmem [0x78, 0x61, 0x62, 0x78, 0x78, 0x78, 0x79, 0x79, 0x79, 0x79]
        [0x61, 0x62] = some 1 := by
  decide

/-- C2 amended: the trailing `min(2 * INPUT_BUF_LEN, accumulated_size)`
search window never hides a separator occurrence as long as the
accumulator held no occurrence before the read: with a separator of at
most `INPUT_BUF_LEN` bytes and a chunk of at most `INPUT_BUF_LEN` bytes,
the windowed search of line 376 equals a search of the whole accumulator,
so any occurrence — including one split across two consecutive stdin
reads — is detected.  (When a split leaves a further occurrence in the
retained remainder, later reads can push it outside the window and it can
be lost, as the counterexample shows.) -/
theorem C2_window_amended (cfg : Config) (buf chunk : List Byte)
    (hlen : cfg.sepBytes.length ≤ cfg.inputBufLen)
    (hchunk : chunk.length ≤ cfg.inputBufLen)
    (hclean : memmem buf cfg.sepBytes = none) :
    findSep cfg (buf ++ chunk) = memmem (buf ++ chunk) cfg.sepBytes := by
  apply findSep_eq_memmem
  intro j hj hocc
  simp only [searchWindow, List.length_append] at hj
  rcases le_or_lt (buf.length + chunk.length) (2 * cfg.inputBufLen) with hle | hgt
  · rw [Nat.min_eq_right hle] at hj
    omega
  · rw [Nat.min_eq_left (by omega)] at hj
    rcases le_or_lt (j + cfg.sepBytes.length) buf.length with hin | hout
    · have hdrop : (buf ++ chunk).drop j = buf.drop j ++ chunk :=
        List.drop_append_of_le_length (by omega)
      have htake : (buf.drop j ++ chunk).take cfg.sepBytes.length =
          (buf.drop j).take cfg.sepBytes.length :=
        List.take_append_of_le_length (by simp; omega)
      have : occursAt cfg.sepBytes buf j := by
        rw [occursAt] at hocc ⊢
        rw [hdrop, htake] at hocc
        exact hocc
      exact memmem_none buf cfg.sepBytes hclean j this
    · omega

/-- Witness for C2 amended: an occurrence of the explicit separator
`61 62` split across the two reads `78 61` and `62 79` is found by the
windowed search exactly as by a full search. -/
theorem C2_window_amended_witness :
    findSep ⟨4, 100, some [0x61, 0x62]⟩ ([0x78, 0x61] ++ [0x62, 0x79]) =
      memmem ([0x78, 0x61] ++ [0x62, 0x79])
        (Config.sepBytes ⟨4, 100, some [0x61, 0x62]⟩) :=
  C2_window_amended ⟨4, 100, some [0x61, 0x62]⟩ [0x78, 0x61] [0x62, 0x79]
    (by decide) (by decide) (by decide)

end StreamEye

namespace StreamEye

/-! ### The concatenated-JPEG round trip (C3) -/

theorem occursAt_getElem (needle hay : List Byte) (i m : Nat)
    (h : occursAt needle hay i) (hm : m < needle.length) :
    hay[i + m]? = needle[m]? := by
  rw [occursAt] at h
  have hx : ((hay.drop i).take needle.length)[m]? = needle[m]? := by rw [h]
  rwa [List.getElem?_take_of_lt hm, List.getElem?_drop] at hx

theorem autoSep_length : autoSep.length = 4 := by
  simp [autoSep, JPEG_END, JPEG_START]

/-- At the junction of two valid JPEG frames, the first (and only)
occurrence of the auto separator `FF D9 FF D8` is at offset
`J.length - 2`. -/
theorem memmem_junction (cfg : Config) (J Jn : List Byte)
    (hJ : ValidJpeg cfg J) (hJn : ValidJpeg cfg Jn) :
    memmem (J ++ Jn) autoSep = some (J.length - 2) := by
  obtain ⟨hJ4, hJL, hJs, hJe, hJno⟩ := hJ
  obtain ⟨hn4, hnL, hns, hne, hnno⟩ := hJn
  rw [memmem_eq_some_iff]
  constructor
  · rw [occursAt, autoSep_length]
    have hdrop : (J ++ Jn).drop (J.length - 2) = JPEG_END ++ Jn := by
      rw [List.drop_append_of_le_length (by omega), hJe]
    rw [hdrop]
    have htake : (JPEG_END ++ Jn).take 4 = JPEG_END ++ Jn.take 2 := by
      simp [JPEG_END]
    rw [htake, hns]
    rfl
  · intro j hj hocc
    rcases le_or_lt (j + 4) J.length with hin | hout
    · apply memmem_none J autoSep hJno j
      rw [occursAt, autoSep_length] at hocc ⊢
      rw [List.drop_append_of_le_length (by omega)] at hocc
      rwa [List.take_append_of_le_length (by simp; omega)] at hocc
    · have hbyte := occursAt_getElem autoSep (J ++ Jn) j 1 hocc
        (by rw [autoSep_length]; omega)
      have hj1 : j + 1 = J.length - 2 := by omega
      have hFF : (J ++ Jn)[j + 1]? = J[J.length - 2]? := by
        rw [hj1]
        exact List.getElem?_append_left (by omega)
      have hJval : J[J.length - 2]? = some 0xFF := by
        have hz : (J.drop (J.length - 2))[0]? = J[J.length - 2]? := by
          simp [List.getElem?_drop]
        rw [hJe] at hz
        simp [JPEG_END] at hz
        exact hz.symm
      have hsep1 : autoSep[1]? = some 0xD9 := by decide
      rw [hFF, hJval, hsep1] at hbyte
      simp at hbyte

/-- One main-loop step at a frame junction: with a valid JPEG frame
accumulated and the next valid frame arriving as one chunk, the segmenter
emits exactly the first frame and retains exactly the second. -/
theorem processChunk_junction (cfg : Config) (hauto : cfg.input_separator = none)
    (hB : 2 * cfg.inputBufLen < cfg.jpegBufLen)
    (J Jn : List Byte) (hJ : ValidJpeg cfg J) (hJn : ValidJpeg cfg Jn) :
    processChunk cfg J Jn = (some J, Jn) := by
  have hJ4 := hJ.1
  have hJL := hJ.2.1
  have hnL := hJn.2.1
  have hOv : discards cfg J.length Jn.length = false := by
    simp only [discards, decide_eq_false_iff_not, Nat.not_lt]
    omega
  have hfind : findSep cfg (J ++ Jn) = some (J.length - 2) := by
    rw [findSep_eq_memmem_of_le cfg _ (by simp; omega)]
    have hsb : Config.sepBytes cfg = autoSep := by
      simp [Config.sepBytes, hauto]
    rw [hsb]
    exact memmem_junction cfg J Jn hJ hJn
  rw [processChunk_auto_split cfg J Jn (J.length - 2) hauto hOv hfind]
  have hk2 : J.length - 2 + 2 = J.length := by omega
  rw [hk2, List.take_left, List.drop_left]

/-- The segmenter over a chunk sequence of valid JPEG frames starting from
an accumulated valid frame: all but the last frame are emitted in order,
and the last remains accumulated. -/
theorem processStream_run (cfg : Config) (hauto : cfg.input_separator = none)
    (hB : 2 * cfg.inputBufLen < cfg.jpegBufLen) :
    ∀ (Js : List (List Byte)) (J : List Byte), ValidJpeg cfg J →
      (∀ X ∈ Js, ValidJpeg cfg X) →
      processStream cfg J Js =
        ((J :: Js).dropLast, (J :: Js).getLast (List.cons_ne_nil J Js))
  | [], J, hJ, _ => by
    simp [processStream]
  | Jn :: Js, J, hJ, hJs => by
    have hstep := processChunk_junction cfg hauto hB J Jn hJ (hJs Jn (by simp))
    have ih := processStream_run cfg hauto hB Js Jn (hJs Jn (by simp))
      (fun X hX => hJs X (by simp [hX]))
    simp only [processStream, hstep, ih]
    simp [List.getLast_cons]

/-- C3 counterexample: a single (K = 1) minimal valid JPEG
`FF D8 FF D9` piped in produces zero emitted frames and hence zero
multipart parts, not one: the auto separator never occurs, the frame stays
in the accumulator, and EOF discards it — refuting "exactly K parts /
exactly K frames". -/
theorem C3_counterexample :
    processStream ⟨8, 64, none⟩ [] [[0xFF, 0xD8, 0xFF, 0xD9]] =
      ([], [0xFF, 0xD8, 0xFF, 0xD9]) ∧
    (processStream ⟨8, 64, none⟩ [] [[0xFF, 0xD8, 0xFF, 0xD9]]).1.length ≠
      [[0xFF, 0xD8, 0xFF, 0xD9]].length ∧
    partPayloads (processStream ⟨8, 64, none⟩ [] [[0xFF, 0xD8, 0xFF, 0xD9]]).1 = [] := by
  decide

/-- C3 amended: piping K ≥ 1 concatenated valid JPEG frames into the
segmenter (one frame per read, auto separator, buffers large enough)
emits exactly the first K-1 frames byte-for-byte and in order, so a client
connected from the start receives exactly K-1 multipart parts whose
payloads equal the first K-1 input JPEGs; the K-th frame remains in the
accumulator at EOF and is never emitted. -/
theorem C3_amended (cfg : Config) (hauto : cfg.input_separator = none)
    (hB : 2 * cfg.inputBufLen < cfg.jpegBufLen)
    (J : List Byte) (Js : List (List Byte))
    (hJ : ValidJpeg cfg J) (hJs : ∀ X ∈ Js, ValidJpeg cfg X) :
    processStream cfg [] (J :: Js) =
      ((J :: Js).dropLast, (J :: Js).getLast (List.cons_ne_nil J Js)) ∧
    partPayloads (processStream cfg [] (J :: Js)).1 = (J :: Js).dropLast := by
  have hJ4 := hJ.1
  have hJL := hJ.2.1
  have hfirst : processChunk cfg [] J = (none, J) := by
    have hOv : discards cfg ([] : List Byte).length J.length = false := by
      simp only [discards, decide_eq_false_iff_not, Nat.not_lt, List.length_nil]
      omega
    have hfind : findSep cfg ([] ++ J) = none := by
      simp only [List.nil_append]
      rw [findSep_eq_memmem_of_le cfg J (by omega)]
      have hsb : Config.sepBytes cfg = autoSep := by
        simp [Config.sepBytes, hauto]
      rw [hsb]
      exact hJ.2.2.2.2
    have h := processChunk_no_discard_none cfg [] J hOv hfind
    simpa using h
  have hrun := processStream_run cfg hauto hB Js J hJ hJs
  constructor
  · simp only [processStream, hfirst, hrun]
    simp
  · simp only [processStream, hfirst, hrun, partPayloads]
    simp

/-- Witness for C3 amended: two concatenated valid JPEG frames yield
exactly the first frame as the single emitted frame, with the second
retained. -/
theorem C3_amended_witness :
    processStream ⟨8, 64, none⟩ []
        [[0xFF, 0xD8, 0x00, 0xFF, 0xD9], [0xFF, 0xD8, 0xFF, 0xD9]] =
      ([[0xFF, 0xD8, 0x00, 0xFF, 0xD9]], [0xFF, 0xD8, 0xFF, 0xD9]) := by
  have h := (C3_amended ⟨8, 64, none⟩ rfl (by decide) [0xFF, 0xD8, 0x00, 0xFF, 0xD9]
    [[0xFF, 0xD8, 0xFF, 0xD9]] (by decide) (by decide)).1
  rw [h]; decide

end StreamEye

namespace StreamEye

/-! ### Lock discipline of the main thread (C6, C7) -/

theorem readsHeldCheck_joins (h : Bool) (cl : List Nat) :
    readsHeldCheck h (cl.map Ev.joinClient ++ [Ev.exitProc 0]) = true := by
  induction cl generalizing h with
  | nil => simp [readsHeldCheck, applyJpeg]
  | cons a t ih => simp [readsHeldCheck, applyJpeg, ih]

theorem readsHeldCheck_shutdown (h : Bool) (cl : List Nat) :
    readsHeldCheck h (shutdownTrace cl) = true := by
  simp [shutdownTrace, readsHeldCheck, applyJpeg, readsHeldCheck_joins]

theorem mainLoop_readsHeld (cfg : Config) :
    ∀ (inputs : List LoopInput) (buf : List Byte) (clients : List Nat),
      readsHeldCheck true (mainLoop cfg buf clients inputs) = true
  | [], buf, clients => by
    simp [mainLoop, readsHeldCheck_shutdown]
  | inp :: rest, buf, clients => by
    have ih := mainLoop_readsHeld cfg rest
    rcases inp with ⟨rd, acc⟩
    cases rd with
    | eof =>
      simp [mainLoop, readsHeldCheck, applyJpeg, readsHeldCheck_shutdown,
        readsHeldCheck_joins]
    | rerr eintr =>
      cases eintr <;>
        simp [mainLoop, readsHeldCheck, applyJpeg, readsHeldCheck_shutdown,
          readsHeldCheck_joins]
    | chunk data =>
      by_cases hd : discards cfg buf.length data.length = true
      · simp [mainLoop, readsHeldCheck, applyJpeg, hd, ih]
      · cases hsep : (processChunk cfg buf data).1 with
        | none =>
          cases acc with
          | none => simp [mainLoop, readsHeldCheck, applyJpeg, hd, hsep, ih]
          | some id => simp [mainLoop, readsHeldCheck, applyJpeg, hd, hsep, ih]
        | some f =>
          cases acc with
          | none => simp [mainLoop, readsHeldCheck, applyJpeg, hd, hsep, ih]
          | some id => simp [mainLoop, readsHeldCheck, applyJpeg, hd, hsep, ih]

theorem readsHeldCheck_spec :
    ∀ (l : List Ev) (held : Bool), readsHeldCheck held l = true →
      ∀ (i : Nat) (r : ReadResult), l[i]? = some (Ev.readCall r) →
        (l.take i).foldl applyJpeg held = true
  | [], held, h, i, r, hi => by simp at hi
  | e :: t, held, h, i, r, hi => by
    simp only [readsHeldCheck, Bool.and_eq_true] at h
    cases i with
    | zero =>
      simp only [List.getElem?_cons_zero, Option.some.injEq] at hi
      subst hi
      simpa using h.1
    | succ i =>
      simp only [List.getElem?_cons_succ] at hi
      have := readsHeldCheck_spec t (applyJpeg held e) h.2 i r hi
      simpa [List.take_succ_cons, List.foldl_cons] using this

/-- C6 counterexample: on the very first loop iteration the producer is
already inside `read` (trace index 1) while `jpeg_mutex` — locked at
streameye.c line 329, before the loop — is still held, refuting the claim
that the producer never holds `jpeg_mutex` while blocked in its stdin
read. -/
theorem C6_counterexample :
    (mainTrace ⟨4, 100, none⟩ [⟨ReadResult.chunk [0x41], none⟩])[1]? =
      some (Ev.readCall (ReadResult.chunk [0x41])) ∧
    jpegHeldAt (mainTrace ⟨4, 100, none⟩ [⟨ReadResult.chunk [0x41], none⟩]) 1 = true := by
  decide

/-- C6 amended: the producer holds `jpeg_mutex` during *every* stdin read:
the mutex is locked before the loop (line 329) and released only for the
~1 ms `usleep` window after broadcasting a frame (lines 400-412) and at
shutdown, so every `readCall` event of the main-thread trace happens with
`jpeg_mutex` held. -/
theorem C6_amended (cfg : Config) (inputs : List LoopInput) (i : Nat)
    (r : ReadResult) (h : (mainTrace cfg inputs)[i]? = some (Ev.readCall r)) :
    jpegHeldAt (mainTrace cfg inputs) i = true := by
  have hc : readsHeldCheck false (mainTrace cfg inputs) = true := by
    simp only [mainTrace, readsHeldCheck, applyJpeg]
    simpa using mainLoop_readsHeld cfg inputs [] []
  exact readsHeldCheck_spec (mainTrace cfg inputs) false hc i r h

/-- Witness for C6 amended: the read that observes EOF happens with
`jpeg_mutex` held. -/
theorem C6_amended_witness :
    jpegHeldAt (mainTrace ⟨4, 50, none⟩ [⟨ReadResult.eof, none⟩]) 1 = true :=
  C6_amended ⟨4, 50, none⟩ [⟨ReadResult.eof, none⟩] 1 ReadResult.eof (by decide)

theorem bothCheck_joins (j : Bool) (cl : List Nat) :
    bothCheck j false (cl.map Ev.joinClient ++ [Ev.exitProc 0]) = true := by
  induction cl generalizing j with
  | nil => simp [bothCheck, applyJpeg, applyClients]
  | cons a t ih => simp [bothCheck, applyJpeg, applyClients, ih]

theorem bothCheck_shutdown (j : Bool) (cl : List Nat) :
    bothCheck j false (shutdownTrace cl) = true := by
  simp [shutdownTrace, bothCheck, applyJpeg, applyClients, bothCheck_joins]

theorem mainLoop_bothCheck (cfg : Config) :
    ∀ (inputs : List LoopInput) (buf : List Byte) (clients : List Nat),
      bothCheck true false (mainLoop cfg buf clients inputs) = true
  | [], buf, clients => by
    simp [mainLoop, bothCheck_shutdown]
  | inp :: rest, buf, clients => by
    have ih := mainLoop_bothCheck cfg rest
    rcases inp with ⟨rd, acc⟩
    cases rd with
    | eof =>
      simp [mainLoop, bothCheck, applyJpeg, applyClients, bothCheck_shutdown,
        bothCheck_joins]
    | rerr eintr =>
      cases eintr <;>
        simp [mainLoop, bothCheck, applyJpeg, applyClients, bothCheck_shutdown,
          bothCheck_joins]
    | chunk data =>
      by_cases hd : discards cfg buf.length data.length = true
      · simp [mainLoop, bothCheck, applyJpeg, applyClients, hd, ih]
      · cases hsep : (processChunk cfg buf data).1 with
        | none =>
          cases acc with
          | none => simp [mainLoop, bothCheck, applyJpeg, applyClients, hd, hsep, ih]
          | some id => simp [mainLoop, bothCheck, applyJpeg, applyClients, hd, hsep, ih]
        | some f =>
          cases acc with
          | none => simp [mainLoop, bothCheck, applyJpeg, applyClients, hd, hsep, ih]
          | some id => simp [mainLoop, bothCheck, applyJpeg, applyClients, hd, hsep, ih]

theorem bothCheck_spec :
    ∀ (l : List Ev) (j c : Bool), bothCheck j c l = true →
      ∀ i, (l.take i).foldl applyClients c = true →
        (l.take i).foldl applyJpeg j = true
  | [], j, c, h, i, hc => by
    simp only [bothCheck] at h
    simp only [List.take_nil, List.foldl_nil] at hc ⊢
    cases c <;> cases j <;> simp_all
  | e :: t, j, c, h, i, hc => by
    simp only [bothCheck, Bool.and_eq_true] at h
    cases i with
    | zero =>
      simp only [List.take_zero, List.foldl_nil] at hc ⊢
      have h1 := h.1
      cases c <;> cases j <;> simp_all
    | succ i =>
      simp only [List.take_succ_cons, List.foldl_cons] at hc ⊢
      exact bothCheck_spec t (applyJpeg j e) (applyClients c e) h.2 i hc

/-- C7 counterexample: while registering a freshly accepted client
(streameye.c lines 427-440) the main thread takes `clients_mutex` while
still holding `jpeg_mutex`: just after the `lockClients` event (trace
index 3) both mutexes are held simultaneously, refuting the claim that no
thread ever holds both locks. -/
theorem C7_counterexample :
    jpegHeldAt (mainTrace ⟨4, 100, none⟩ [⟨ReadResult.chunk [0x41], some 3⟩]) 3 = true ∧
    clientsHeldAt (mainTrace ⟨4, 100, none⟩ [⟨ReadResult.chunk [0x41], some 3⟩]) 3 = true := by
  decide

/-- C7 amended: the main thread does hold both locks while inserting a new
client into the registry, but always in the fixed order `jpeg_mutex`
before `clients_mutex`: whenever it holds `clients_mutex` it also holds
`jpeg_mutex`. -/
theorem C7_amended (cfg : Config) (inputs : List LoopInput) (i : Nat)
    (h : clientsHeldAt (mainTrace cfg inputs) i = true) :
    jpegHeldAt (mainTrace cfg inputs) i = true := by
  have hc : bothCheck false false (mainTrace cfg inputs) = true := by
    simp only [mainTrace, bothCheck, applyJpeg, applyClients]
    simpa using mainLoop_bothCheck cfg inputs [] []
  exact bothCheck_spec (mainTrace cfg inputs) false false hc i h

/-- Witness for C7 amended: at the client-registration point both locks
are held, in particular `jpeg_mutex`. -/
theorem C7_amended_witness :
    jpegHeldAt (mainTrace ⟨4, 60, none⟩ [⟨ReadResult.chunk [0x42], some 9⟩]) 3 = true :=
  C7_amended ⟨4, 60, none⟩ [⟨ReadResult.chunk [0x42], some 9⟩] 3 (by decide)

end StreamEye

namespace StreamEye

/-! ### Shutdown behaviour (C8) -/

theorem shutdownTrace_ne_nil (cl : List Nat) : shutdownTrace cl ≠ [] := by
  simp [shutdownTrace]

theorem mainLoop_ne_nil (cfg : Config) (buf : List Byte) (clients : List Nat)
    (inputs : List LoopInput) : mainLoop cfg buf clients inputs ≠ [] := by
  cases inputs with
  | nil => simp [mainLoop, shutdownTrace]
  | cons inp rest => simp [mainLoop]

theorem shutdownTrace_getLast (cl : List Nat) :
    (shutdownTrace cl).getLast? = some (Ev.exitProc 0) := by
  rw [shutdownTrace]
  exact List.getLast?_concat _

theorem getLast?_cons_ne (a : Ev) (l : List Ev) (h : l ≠ []) :
    (a :: l).getLast? = l.getLast? := by
  have he : a :: l = [a] ++ l := rfl
  rw [he, List.getLast?_append_of_ne_nil _ h]

theorem shutdownTrace_mem_close (cl : List Nat) :
    Ev.closeSocket ∈ shutdownTrace cl := by
  simp [shutdownTrace]

theorem shutdownTrace_mem_broadcast (cl : List Nat) :
    Ev.broadcastFrame ∈ shutdownTrace cl := by
  simp [shutdownTrace]

theorem shutdownTrace_mem_join (cl : List Nat) (id : Nat) (h : id ∈ cl) :
    Ev.joinClient id ∈ shutdownTrace cl := by
  rw [shutdownTrace]
  refine List.mem_append_left _ ?_
  refine List.mem_cons_of_mem _ (List.mem_cons_of_mem _ (List.mem_cons_of_mem _ ?_))
  exact List.mem_map_of_mem _ h

/-- Lifting facts about the tail of a trace over leading neutral
events (no `closeSocket`, no `joinClient`). -/
theorem lift_trace (evs tr : List Ev) (hne : tr ≠ [])
    (hno : ∀ e ∈ evs, e ≠ Ev.closeSocket ∧ ∀ id, e ≠ Ev.joinClient id) :
    ((evs ++ tr).getLast? = tr.getLast?) ∧
    (∀ x, x ∈ tr → x ∈ evs ++ tr) ∧
    (Ev.closeSocket ∉ tr → Ev.closeSocket ∉ evs ++ tr) ∧
    (∀ id, Ev.joinClient id ∉ tr → Ev.joinClient id ∉ evs ++ tr) := by
  refine ⟨List.getLast?_append_of_ne_nil _ hne, ?_, ?_, ?_⟩
  · intro x hx
    exact List.mem_append_right _ hx
  · intro h hmem
    rcases List.mem_append.mp hmem with h1 | h1
    · exact (hno _ h1).1 rfl
    · exact h h1
  · intro id h hmem
    rcases List.mem_append.mp hmem with h1 | h1
    · exact (hno _ h1).2 id rfl
    · exact h h1

/-- C8 amended: EOF on stdin, or a read failing with `EINTR`, makes the
main loop break into the graceful shutdown sequence: the listening socket
is closed, the frame condvar is broadcast, every registered client is
joined, and the process exits with code 0 (streameye.c lines 360-363,
352-354, 444-482).  A read failure with any *other* errno instead makes
`main` return -1 immediately (line 358): the listening socket is never
closed and no client is ever joined, so the claim's "or fails" case does
not shut down gracefully. -/
theorem C8_amended (cfg : Config) :
    ∀ (pre : List LoopInput) (buf : List Byte) (clients : List Nat)
      (stopInp : LoopInput) (rest : List LoopInput),
      (∀ x ∈ pre, ∃ d, x.rd = ReadResult.chunk d) →
      ((stopInp.rd = ReadResult.eof ∨ stopInp.rd = ReadResult.rerr true) →
        (mainLoop cfg buf clients (pre ++ stopInp :: rest)).getLast? =
            some (Ev.exitProc 0) ∧
        Ev.closeSocket ∈ mainLoop cfg buf clients (pre ++ stopInp :: rest) ∧
        Ev.broadcastFrame ∈ mainLoop cfg buf clients (pre ++ stopInp :: rest) ∧
        ∀ id ∈ clients,
          Ev.joinClient id ∈ mainLoop cfg buf clients (pre ++ stopInp :: rest)) ∧
      (stopInp.rd = ReadResult.rerr false →
        (mainLoop cfg buf clients (pre ++ stopInp :: rest)).getLast? =
            some (Ev.exitProc (-1)) ∧
        Ev.closeSocket ∉ mainLoop cfg buf clients (pre ++ stopInp :: rest) ∧
        ∀ id, Ev.joinClient id ∉ mainLoop cfg buf clients (pre ++ stopInp :: rest))
  | [], buf, clients, stopInp, rest, hpre => by
    constructor
    · intro hstop
      have htr : mainLoop cfg buf clients ([] ++ stopInp :: rest) =
          Ev.readCall stopInp.rd :: shutdownTrace clients := by
        rcases hstop with h | h <;> simp [mainLoop, h]
      rw [htr]
      refine ⟨?_, ?_, ?_, ?_⟩
      · rw [getLast?_cons_ne _ _ (shutdownTrace_ne_nil clients),
          shutdownTrace_getLast]
      · exact List.mem_cons_of_mem _ (shutdownTrace_mem_close clients)
      · exact List.mem_cons_of_mem _ (shutdownTrace_mem_broadcast clients)
      · intro id hid
        exact List.mem_cons_of_mem _ (shutdownTrace_mem_join clients id hid)
    · intro hstop
      have htr : mainLoop cfg buf clients ([] ++ stopInp :: rest) =
          [Ev.readCall stopInp.rd, Ev.exitProc (-1)] := by
        simp [mainLoop, hstop]
      rw [htr]
      refine ⟨rfl, ?_, ?_⟩
      · simp
      · intro id
        simp
  | inp :: pre, buf, clients, stopInp, rest, hpre => by
    obtain ⟨d, hd⟩ := hpre inp (List.mem_cons_self inp pre)
    have hpre' : ∀ x ∈ pre, ∃ e, x.rd = ReadResult.chunk e :=
      fun x hx => hpre x (List.mem_cons_of_mem _ hx)
    have IH := C8_amended cfg pre
    by_cases hdis : discards cfg buf.length d.length = true
    · -- overflow: discard and continue, skipping the accept
      have htr : mainLoop cfg buf clients ((inp :: pre) ++ stopInp :: rest) =
          [Ev.readCall (ReadResult.chunk d)] ++
            mainLoop cfg [] clients (pre ++ stopInp :: rest) := by
        simp [mainLoop, hd, hdis]
      rw [htr]
      have hlift := lift_trace [Ev.readCall (ReadResult.chunk d)]
        (mainLoop cfg [] clients (pre ++ stopInp :: rest))
        (mainLoop_ne_nil cfg [] clients _)
        (by intro e he; fin_cases he <;> simp)
      constructor
      · intro hstop
        obtain ⟨hlast, hclose, hbc, hjoin⟩ := (IH [] clients stopInp rest hpre').1 hstop
        exact ⟨hlift.1.trans hlast, hlift.2.1 _ hclose, hlift.2.1 _ hbc,
          fun id hid => hlift.2.1 _ (hjoin id hid)⟩
      · intro hstop
        obtain ⟨hlast, hclose, hjoin⟩ := (IH [] clients stopInp rest hpre').2 hstop
        exact ⟨hlift.1.trans hlast, hlift.2.2.1 hclose,
          fun id => hlift.2.2.2 id (hjoin id)⟩
    · cases hsep : (processChunk cfg buf d).1 with
      | none =>
        cases hacc : inp.accept with
        | none =>
          have htr : mainLoop cfg buf clients ((inp :: pre) ++ stopInp :: rest) =
              [Ev.readCall (ReadResult.chunk d)] ++
                mainLoop cfg (processChunk cfg buf d).2 clients
                  (pre ++ stopInp :: rest) := by
            simp [mainLoop, hd, hdis, hsep, hacc]
          rw [htr]
          have hlift := lift_trace [Ev.readCall (ReadResult.chunk d)]
            (mainLoop cfg (processChunk cfg buf d).2 clients (pre ++ stopInp :: rest))
            (mainLoop_ne_nil cfg _ clients _)
            (by intro e he; fin_cases he <;> simp)
          constructor
          · intro hstop
            obtain ⟨hlast, hclose, hbc, hjoin⟩ :=
              (IH (processChunk cfg buf d).2 clients stopInp rest hpre').1 hstop
            exact ⟨hlift.1.trans hlast, hlift.2.1 _ hclose, hlift.2.1 _ hbc,
              fun id hid => hlift.2.1 _ (hjoin id hid)⟩
          · intro hstop
            obtain ⟨hlast, hclose, hjoin⟩ :=
              (IH (processChunk cfg buf d).2 clients stopInp rest hpre').2 hstop
            exact ⟨hlift.1.trans hlast, hlift.2.2.1 hclose,
              fun id => hlift.2.2.2 id (hjoin id)⟩
        | some id2 =>
          have htr : mainLoop cfg buf clients ((inp :: pre) ++ stopInp :: rest) =
              [Ev.readCall (ReadResult.chunk d), Ev.lockClients, Ev.unlockClients] ++
                mainLoop cfg (processChunk cfg buf d).2 (clients ++ [id2])
                  (pre ++ stopInp :: rest) := by
            simp [mainLoop, hd, hdis, hsep, hacc]
          rw [htr]
          have hlift := lift_trace
            [Ev.readCall (ReadResult.chunk d), Ev.lockClients, Ev.unlockClients]
            (mainLoop cfg (processChunk cfg buf d).2 (clients ++ [id2])
              (pre ++ stopInp :: rest))
            (mainLoop_ne_nil cfg _ _ _)
            (by intro e he; fin_cases he <;> simp)
          constructor
          · intro hstop
            obtain ⟨hlast, hclose, hbc, hjoin⟩ :=
              (IH (processChunk cfg buf d).2 (clients ++ [id2]) stopInp rest hpre').1 hstop
            exact ⟨hlift.1.trans hlast, hlift.2.1 _ hclose, hlift.2.1 _ hbc,
              fun id hid =>
                hlift.2.1 _ (hjoin id (List.mem_append_left _ hid))⟩
          · intro hstop
            obtain ⟨hlast, hclose, hjoin⟩ :=
              (IH (processChunk cfg buf d).2 (clients ++ [id2]) stopInp rest hpre').2 hstop
            exact ⟨hlift.1.trans hlast, hlift.2.2.1 hclose,
              fun id => hlift.2.2.2 id (hjoin id)⟩
      | some f =>
        cases hacc : inp.accept with
        | none =>
          have htr : mainLoop cfg buf clients ((inp :: pre) ++ stopInp :: rest) =
              [Ev.readCall (ReadResult.chunk d), Ev.broadcastFrame, Ev.unlockJpeg,
                Ev.sleepYield, Ev.lockJpeg] ++
                mainLoop cfg (processChunk cfg buf d).2 clients
                  (pre ++ stopInp :: rest) := by
            simp [mainLoop, hd, hdis, hsep, hacc]
          rw [htr]
          have hlift := lift_trace
            [Ev.readCall (ReadResult.chunk d), Ev.broadcastFrame, Ev.unlockJpeg,
              Ev.sleepYield, Ev.lockJpeg]
            (mainLoop cfg (processChunk cfg buf d).2 clients (pre ++ stopInp :: rest))
            (mainLoop_ne_nil cfg _ clients _)
            (by intro e he; fin_cases he <;> simp)
          constructor
          · intro hstop
            obtain ⟨hlast, hclose, hbc, hjoin⟩ :=
              (IH (processChunk cfg buf d).2 clients stopInp rest hpre').1 hstop
            exact ⟨hlift.1.trans hlast, hlift.2.1 _ hclose, hlift.2.1 _ hbc,
              fun id hid => hlift.2.1 _ (hjoin id hid)⟩
          · intro hstop
            obtain ⟨hlast, hclose, hjoin⟩ :=
              (IH (processChunk cfg buf d).2 clients stopInp rest hpre').2 hstop
            exact ⟨hlift.1.trans hlast, hlift.2.2.1 hclose,
              fun id => hlift.2.2.2 id (hjoin id)⟩
        | some id2 =>
          have htr : mainLoop cfg buf clients ((inp :: pre) ++ stopInp :: rest) =
              [Ev.readCall (ReadResult.chunk d), Ev.broadcastFrame, Ev.unlockJpeg,
                Ev.sleepYield, Ev.lockJpeg, Ev.lockClients, Ev.unlockClients] ++
                mainLoop cfg (processChunk cfg buf d).2 (clients ++ [id2])
                  (pre ++ stopInp :: rest) := by
            simp [mainLoop, hd, hdis, hsep, hacc]
          rw [htr]
          have hlift := lift_trace
            [Ev.readCall (ReadResult.chunk d), Ev.broadcastFrame, Ev.unlockJpeg,
              Ev.sleepYield, Ev.lockJpeg, Ev.lockClients, Ev.unlockClients]
            (mainLoop cfg (processChunk cfg buf d).2 (clients ++ [id2])
              (pre ++ stopInp :: rest))
            (mainLoop_ne_nil cfg _ _ _)
            (by intro e he; fin_cases he <;> simp)
          constructor
          · intro hstop
            obtain ⟨hlast, hclose, hbc, hjoin⟩ :=
              (IH (processChunk cfg buf d).2 (clients ++ [id2]) stopInp rest hpre').1 hstop
            exact ⟨hlift.1.trans hlast, hlift.2.1 _ hclose, hlift.2.1 _ hbc,
              fun id hid =>
                hlift.2.1 _ (hjoin id (List.mem_append_left _ hid))⟩
          · intro hstop
            obtain ⟨hlast, hclose, hjoin⟩ :=
              (IH (processChunk cfg buf d).2 (clients ++ [id2]) stopInp rest hpre').2 hstop
            exact ⟨hlift.1.trans hlast, hlift.2.2.1 hclose,
              fun id => hlift.2.2.2 id (hjoin id)⟩

/-- C8 counterexample: a stdin read failure with an errno other than
`EINTR` makes `main` return -1 immediately (streameye.c line 358): the
trace ends with exit code -1, the listening socket is never closed and no
client (here the registered client 7) is ever joined — not a graceful
shutdown, refuting the claim for the general "read fails" case. -/
theorem C8_counterexample :
    (mainLoop ⟨4, 100, none⟩ [] [7] [⟨ReadResult.rerr false, none⟩]).getLast? =
      some (Ev.exitProc (-1)) ∧
    Ev.closeSocket ∉ mainLoop ⟨4, 100, none⟩ [] [7] [⟨ReadResult.rerr false, none⟩] ∧
    Ev.joinClient 7 ∉ mainLoop ⟨4, 100, none⟩ [] [7] [⟨ReadResult.rerr false, none⟩] ∧
    Ev.exitProc 0 ∉ mainLoop ⟨4, 100, none⟩ [] [7] [⟨ReadResult.rerr false, none⟩] := by
  decide

/-- Witness for C8 amended: after one chunk iteration that registers
client 5, an EOF read leads to a trace that closes the socket, joins the
initially registered client 7, and exits 0. -/
theorem C8_amended_witness :
    (mainLoop ⟨4, 100, none⟩ [] [7]
        ([⟨ReadResult.chunk [0x41], some 5⟩] ++ ⟨ReadResult.eof, none⟩ :: [])).getLast? =
      some (Ev.exitProc 0) ∧
    Ev.closeSocket ∈ mainLoop ⟨4, 100, none⟩ [] [7]
        ([⟨ReadResult.chunk [0x41], some 5⟩] ++ ⟨ReadResult.eof, none⟩ :: []) ∧
    Ev.joinClient 7 ∈ mainLoop ⟨4, 100, none⟩ [] [7]
        ([⟨ReadResult.chunk [0x41], some 5⟩] ++ ⟨ReadResult.eof, none⟩ :: []) := by
  have h := (C8_amended ⟨4, 100, none⟩ [⟨ReadResult.chunk [0x41], some 5⟩] [] [7]
    ⟨ReadResult.eof, none⟩ [] (by intro x hx; fin_cases hx; exact ⟨[0x41], rfl⟩)).1
    (Or.inl rfl)
  exact ⟨h.1, h.2.1, h.2.2.2 7 (by decide)⟩

end StreamEye

namespace StreamEye

/-! ### `on_client_exit` (C9) and port resolution (C10) -/

theorem on_client_exit_eq_found (cs : List Nat) (c : Nat) (i : Nat)
    (h : findClientIdx cs c = some i) :
    on_client_exit cs c = cs.take i ++ cs.drop (i + 1) := by
  simp [on_client_exit, h]

theorem on_client_exit_eq_not_found (cs : List Nat) (c : Nat)
    (h : findClientIdx cs c = none) :
    on_client_exit cs c = cs.take (cs.length - 1) := by
  simp [on_client_exit, h]

theorem findClientIdx_isSome :
    ∀ (cs : List Nat) (c : Nat), c ∈ cs → ∃ i, findClientIdx cs c = some i
  | [], c, h => absurd h (by simp)
  | a :: t, c, h => by
    by_cases hac : a = c
    · exact ⟨0, by simp [findClientIdx, hac]⟩
    · have hct : c ∈ t := by
        rcases List.mem_cons.mp h with h1 | h1
        · exact absurd h1.symm hac
        · exact h1
      obtain ⟨i, hi⟩ := findClientIdx_isSome t c hct
      exact ⟨i + 1, by simp [findClientIdx, hac, hi]⟩

theorem findClientIdx_none :
    ∀ (cs : List Nat) (c : Nat), c ∉ cs → findClientIdx cs c = none
  | [], _, _ => rfl
  | a :: t, c, h => by
    have hac : ¬ a = c := fun he => h (he ▸ List.mem_cons_self a t)
    have hct : c ∉ t := fun hm => h (List.mem_cons_of_mem _ hm)
    simp [findClientIdx, hac, findClientIdx_none t c hct]

theorem on_client_exit_mem :
    ∀ (cs : List Nat) (c : Nat), c ∈ cs → on_client_exit cs c = cs.erase c
  | [], c, h => by simp at h
  | a :: t, c, h => by
    by_cases hac : a = c
    · subst hac
      have hfind : findClientIdx (a :: t) a = some 0 := by
        simp [findClientIdx]
      rw [on_client_exit_eq_found _ _ _ hfind]
      simp [List.erase_cons]
    · have hct : c ∈ t := by
        rcases List.mem_cons.mp h with h1 | h1
        · exact absurd h1.symm hac
        · exact h1
      obtain ⟨i, hi⟩ := findClientIdx_isSome t c hct
      have hfind : findClientIdx (a :: t) c = some (i + 1) := by
        simp [findClientIdx, hac, hi]
      rw [on_client_exit_eq_found _ _ _ hfind]
      have ht := on_client_exit_mem t c hct
      rw [on_client_exit_eq_found t c i hi] at ht
      have herase : (a :: t).erase c = a :: t.erase c := by
        simp [List.erase_cons, hac]
      rw [herase, ← ht]
      simp

/-- C9: `on_client_exit` (streameye.c lines 151-175) with a client pointer
present in the registry removes exactly that entry, keeps the relative
order of the remaining entries (the result is a sublist), and shrinks the
registry by one; with a pointer *not* present, the scan finds nothing, yet
`realloc(clients, --num_clients)` still shrinks the registry by one,
silently dropping its last entry. -/
theorem C9_on_client_exit (cs : List Nat) (c : Nat) :
    (c ∈ cs →
      on_client_exit cs c = cs.erase c ∧
      (on_client_exit cs c).length + 1 = cs.length ∧
      List.Sublist (on_client_exit cs c) cs) ∧
    (c ∉ cs → cs ≠ [] →
      on_client_exit cs c = cs.dropLast ∧
      (on_client_exit cs c).length + 1 = cs.length) := by
  constructor
  · intro h
    have he := on_client_exit_mem cs c h
    refine ⟨he, ?_, ?_⟩
    · rw [he]
      have hlen := List.length_erase_of_mem h
      have hpos : 0 < cs.length := List.length_pos.mpr (by rintro rfl; simp at h)
      omega
    · rw [he]
      exact List.erase_sublist c cs
  · intro h hne
    have hfind := findClientIdx_none cs c h
    have he := on_client_exit_eq_not_found cs c hfind
    have hpos : 0 < cs.length := List.length_pos.mpr hne
    refine ⟨?_, ?_⟩
    · rw [he, ← List.dropLast_eq_take]
    · rw [he]
      simp [List.length_take]
      omega

/-- Witness for C9: removing the present client 2 from `[1, 2, 3]` yields
`[1, 3]`; "removing" the absent client 9 drops the last entry, yielding
`[1, 2]`. -/
theorem C9_on_client_exit_witness :
    on_client_exit [1, 2, 3] 2 = [1, 3] ∧ on_client_exit [1, 2, 3] 9 = [1, 2] := by
  constructor
  · have h := ((C9_on_client_exit [1, 2, 3] 2).1 (by decide)).1
    rw [h]; decide
  · have h := ((C9_on_client_exit [1, 2, 3] 9).2 (by decide) (by decide)).1
    rw [h]; decide

/-- C10: a parsed `-p 0` leaves `tcp_port` at 0, which is exactly the
unset initial value, so the `if (!tcp_port) tcp_port = DEF_TCP_PORT`
default of streameye.c lines 272-274 kicks in: the server listens on the
default port 8080, identically to giving no `-p` option at all. -/
theorem C10_port_zero :
    resolveTcpPort (some 0) = DEF_TCP_PORT ∧
    resolveTcpPort none = DEF_TCP_PORT ∧
    resolveTcpPort (some 0) = resolveTcpPort none ∧
    DEF_TCP_PORT = 8080 := by
  decide

end StreamEye
